import Mathlib

/-
Shallow embedding of solana-labs/example-token (src/program/src/state.rs,
error.rs, processor.rs) and proofs about its specification claims.

Modelling conventions:
- `u8` bytes are `Fin 256`; `u64` values are `Nat`, with wrapping on the one
  operation where the source can overflow (`-=`), written `wrapSub` with an
  explicit `% 2 ^ 64`.
- `Pubkey` is a list of bytes; real keys always have length 32, and the
  fixed-layout struct copy writes exactly 32 bytes (`padKey`, the identity on
  length-32 keys).
- The unsafe zero-copy struct reinterpretation in `State::serialize` /
  `State::deserialize` is modelled as an explicit fixed-layout byte codec in
  declaration order (`Token`: supply at 0, decimals at 8, 16 bytes total;
  `TokenAccount`: token at 0, owner at 32, amount at 64, `Option` delegate at
  72 with a tag byte then 7 padding bytes, 120 bytes total), matching
  `size_of::<Token>() = 16` and `size_of::<TokenAccount>() = 120`.
- Account mutation through `&mut [u8]` is modelled by state passing: each
  handler returns the result together with the account list after its writes,
  so partially-written error states are observable.
- `AccountInfo` keeps `key`, `is_signer`, `data` and the owning program
  `owner`; the `lamports` field is omitted (no code path reads it).
-/

set_option linter.unusedVariables false

namespace ExampleToken

/-- Bytes of the account and instruction buffers (`u8` in the source). -/
abbrev Byte := Fin 256

/-- Truncation of a natural number to one byte. -/
def byte (n : Nat) : Byte := ⟨n % 256, Nat.mod_lt _ (by norm_num)⟩

/-- Little-endian byte string (length `w`) of a machine integer. -/
def leBytes : Nat → Nat → List Byte
  | 0, _ => []
  | w + 1, n => byte n :: leBytes w (n / 256)

/-- Value of a little-endian byte string. -/
def leVal (l : List Byte) : Nat := l.foldr (fun b acc => b.val + 256 * acc) 0

/-- An account identity (`Pubkey`, 32 bytes in the source). -/
abbrev Pubkey := List Byte

/-- The 32-byte image of a key inside an encoded struct; identity on real,
length-32 keys. -/
def padKey (k : Pubkey) : List Byte := k.take 32 ++ List.replicate (32 - k.length) (byte 0)

/-- Corresponds to `size_of::<Token>()` = 16. -/
def tokenSize : Nat := 16

/-- Corresponds to `size_of::<TokenAccount>()` = 120. -/
def accountSize : Nat := 120

/-- Mirrors `struct Token { supply: u64, decimals: u64 }`. -/
structure Token where
  supply : Nat
  decimals : Nat
deriving DecidableEq

/-- Mirrors `struct TokenAccountDelegate { source: Pubkey, original_amount: u64 }`. -/
structure TokenAccountDelegate where
  source : Pubkey
  original_amount : Nat
deriving DecidableEq

/-- Mirrors `struct TokenAccount { token, owner, amount, delegate }`. -/
structure TokenAccount where
  token : Pubkey
  owner : Pubkey
  amount : Nat
  delegate : Option TokenAccountDelegate
deriving DecidableEq

/-- Mirrors `enum State { Unallocated, Token(Token), Account(TokenAccount), Invalid }`. -/
inductive State where
  | Unallocated : State
  | Token : Token → State
  | Account : TokenAccount → State
  | Invalid : State
deriving DecidableEq

/-- Mirrors `enum Command`. -/
inductive Command where
  | NewToken : Token → Command
  | NewTokenAccount : Command
  | Transfer : Nat → Command
  | Approve : Nat → Command
  | SetOwner : Command
deriving DecidableEq

/-- Mirrors `enum TokenError` from error.rs. -/
inductive TokenError where
  | MissingSigner : TokenError
  | InvalidArgument : TokenError
  | InvalidUserdata : TokenError
  | InsufficientFunds : TokenError
  | NotEnoughAccountKeys : TokenError
  | TokenMismatch : TokenError
  | NotDelegate : TokenError
  | NoOwner : TokenError
deriving DecidableEq

/-- Fixed-layout bytes of a `Token` payload. -/
def encodeToken (t : Token) : List Byte := leBytes 8 t.supply ++ leBytes 8 t.decimals

/-- Reading a `Token` payload back from bytes. -/
def decodeToken (p : List Byte) : Token :=
  { supply := leVal (p.take 8), decimals := leVal ((p.drop 8).take 8) }

/-- Fixed-layout bytes of the `Option<TokenAccountDelegate>` field: a tag byte,
7 alignment padding bytes, then the 40-byte payload (48 bytes total). -/
def encodeDelegate : Option TokenAccountDelegate → List Byte
  | none => List.replicate 48 (byte 0)
  | some d => byte 1 :: (List.replicate 7 (byte 0) ++ (padKey d.source ++ leBytes 8 d.original_amount))

/-- Reading the delegate field back: tag 0 is `None`, any other tag `Some`. -/
def decodeDelegate (q : List Byte) : Option TokenAccountDelegate :=
  match q with
  | [] => none
  | b :: _ =>
    if b.val = 0 then none
    else some { source := (q.drop 8).take 32, original_amount := leVal ((q.drop 40).take 8) }

/-- Fixed-layout bytes of a `TokenAccount` payload (120 bytes). -/
def encodeAccount (a : TokenAccount) : List Byte :=
  padKey a.token ++ (padKey a.owner ++ (leBytes 8 a.amount ++ encodeDelegate a.delegate))

/-- Reading a `TokenAccount` payload back from bytes. -/
def decodeAccount (p : List Byte) : TokenAccount :=
  { token := p.take 32
    owner := (p.drop 32).take 32
    amount := leVal ((p.drop 64).take 8)
    delegate := decodeDelegate (p.drop 72) }

/-- Mirrors `State::deserialize`: a one-byte discriminant, then a fixed-size
payload whose presence is length-checked (`input.len() < 1 + size` is written
here as `rest.length < size`). -/
def State.deserialize (input : List Byte) : Except TokenError State :=
  match input with
  | [] => .error .InvalidUserdata
  | b :: rest =>
    match b.val with
    | 0 => .ok .Unallocated
    | 1 =>
      if rest.length < tokenSize then .error .InvalidUserdata
      else .ok (.Token (decodeToken rest))
    | 2 =>
      if rest.length < accountSize then .error .InvalidUserdata
      else .ok (.Account (decodeAccount rest))
    | 3 => .ok .Invalid
    | _ => .error .InvalidUserdata

/-- Mirrors `State::serialize`: writes the discriminant and payload into the
prefix of `output`, leaving the bytes beyond the written extent unchanged.
Note that, as in the source, `Unallocated` and `Invalid` serialize
successfully (writing discriminant bytes 0 and 3). -/
def State.serialize (s : State) (output : List Byte) : Except TokenError (List Byte) :=
  if output.length < 1 then .error .InvalidUserdata
  else
    match s with
    | .Unallocated => .ok (byte 0 :: output.drop 1)
    | .Token t =>
      if output.length < 1 + tokenSize then .error .InvalidUserdata
      else .ok (byte 1 :: (encodeToken t ++ output.drop (1 + tokenSize)))
    | .Account a =>
      if output.length < 1 + accountSize then .error .InvalidUserdata
      else .ok (byte 2 :: (encodeAccount a ++ output.drop (1 + accountSize)))
    | .Invalid => .ok (byte 3 :: output.drop 1)

/-- Mirrors `Command::deserialize`. -/
def Command.deserialize (input : List Byte) : Except TokenError Command :=
  match input with
  | [] => .error .InvalidUserdata
  | b :: rest =>
    match b.val with
    | 0 =>
      if rest.length < tokenSize then .error .InvalidUserdata
      else .ok (.NewToken (decodeToken rest))
    | 1 => .ok .NewTokenAccount
    | 2 =>
      if rest.length < 8 then .error .InvalidUserdata
      else .ok (.Transfer (leVal (rest.take 8)))
    | 3 =>
      if rest.length < 8 then .error .InvalidUserdata
      else .ok (.Approve (leVal (rest.take 8)))
    | 4 => .ok .SetOwner
    | _ => .error .InvalidUserdata

/-- Mirrors solana_sdk's `AccountInfo` as used by this program: identity,
signer flag, mutable data buffer, and the owning program (`lamports` omitted,
never read). -/
structure AccountInfo where
  key : Pubkey
  is_signer : Bool
  data : List Byte
  owner : Pubkey
deriving DecidableEq

/-- Replace the data buffer of the account at index `i` (in-place `&mut`
mutation of one account's buffer). -/
def setData : List AccountInfo → Nat → List Byte → List AccountInfo
  | [], _, _ => []
  | a :: rest, 0, d => { a with data := d } :: rest
  | a :: rest, n + 1, d => a :: setData rest n d

/-- Wrapping `u64` subtraction (`a -= b` in a release build; for every pair
below `2 ^ 64` this is ordinary subtraction when `b ≤ a` and wraps modulo
`2 ^ 64` otherwise). -/
def wrapSub (a b : Nat) : Nat := (a + (2 ^ 64 - b % 2 ^ 64)) % 2 ^ 64

/-- Mirrors `State::process_newtoken`. Account roles: [0] new token
descriptor account, [1] destination holding account. -/
def process_newtoken (accounts : List AccountInfo) (token : Token) :
    Except TokenError Unit × List AccountInfo :=
  match accounts with
  | new_account :: dest_account_i :: _ =>
    match State.deserialize dest_account_i.data with
    | .error e => (.error e, accounts)
    | .ok (.Account dest_token_account) =>
      if new_account.is_signer = false then (.error .InvalidArgument, accounts)
      else if new_account.key ≠ dest_token_account.token then (.error .InvalidArgument, accounts)
      else if dest_token_account.delegate.isSome = true then (.error .InvalidArgument, accounts)
      else
        match State.serialize (.Account { dest_token_account with amount := token.supply })
            dest_account_i.data with
        | .error e => (.error e, accounts)
        | .ok destData =>
          let accounts1 := setData accounts 1 destData
          match State.deserialize new_account.data with
          | .error e => (.error e, accounts1)
          | .ok s =>
            if s ≠ State.Unallocated then (.error .InvalidArgument, accounts1)
            else
              match State.serialize (.Token token) new_account.data with
              | .error e => (.error e, accounts1)
              | .ok newData => (.ok (), setData accounts1 0 newData)
    | .ok _ => (.error .InvalidArgument, accounts)
  | _ => (.error .NotEnoughAccountKeys, accounts)

/-- Mirrors `State::process_newaccount`. Account roles: [0] new account,
[1] owner, [2] token, optional [3] delegation source. No signer flag is
inspected anywhere in this rule. -/
def process_newaccount (accounts : List AccountInfo) :
    Except TokenError Unit × List AccountInfo :=
  match accounts with
  | new_account :: owner_account :: token_account :: rest =>
    match State.deserialize new_account.data with
    | .error e => (.error e, accounts)
    | .ok s =>
      if s ≠ State.Unallocated then (.error .InvalidArgument, accounts)
      else
        let delegate : Option TokenAccountDelegate :=
          match rest with
          | [] => none
          | d :: _ => some { source := d.key, original_amount := 0 }
        match State.serialize
            (.Account { token := token_account.key, owner := owner_account.key,
                        amount := 0, delegate := delegate }) new_account.data with
        | .error e => (.error e, accounts)
        | .ok newData => (.ok (), setData accounts 0 newData)
  | _ => (.error .NotEnoughAccountKeys, accounts)

/-- The final destination write of `State::process_transfer`
(`dest_account.amount -= amount` followed by the serialize into accounts[2]):
note the subtraction, exactly as in the source. -/
def transferDest (accounts : List AccountInfo) (dest_account : TokenAccount) (amount : Nat)
    (destBuf : List Byte) : Except TokenError Unit × List AccountInfo :=
  match State.serialize (.Account { dest_account with amount := wrapSub dest_account.amount amount })
      destBuf with
  | .error e => (.error e, accounts)
  | .ok destData => (.ok (), setData accounts 2 destData)

/-- Mirrors `State::process_transfer`. Account roles: [0] owner of the source,
[1] source (or delegate record), [2] destination, optional [3] the real
source when [1] is a delegate record. -/
def process_transfer (accounts : List AccountInfo) (amount : Nat) :
    Except TokenError Unit × List AccountInfo :=
  match accounts with
  | owner_account :: source_account_i :: dest_account_i :: rest =>
    match State.deserialize source_account_i.data with
    | .error e => (.error e, accounts)
    | .ok s1 =>
      match State.deserialize dest_account_i.data with
      | .error e => (.error e, accounts)
      | .ok s2 =>
        match s1, s2 with
        | .Account source_account, .Account dest_account =>
          if source_account.token ≠ dest_account.token then (.error .InvalidArgument, accounts)
          else if dest_account.delegate.isSome = true then (.error .InvalidArgument, accounts)
          else if owner_account.is_signer = false ∨ owner_account.key ≠ source_account.owner then
            (.error .InvalidArgument, accounts)
          else if source_account.amount < amount then (.error .InsufficientFunds, accounts)
          else
            let source1 := { source_account with amount := wrapSub source_account.amount amount }
            match State.serialize (.Account source1) source_account_i.data with
            | .error e => (.error e, accounts)
            | .ok sourceData =>
              let accounts1 := setData accounts 1 sourceData
              match source1.delegate with
              | some delegate =>
                match rest with
                | [] => (.error .NotEnoughAccountKeys, accounts1)
                | payee :: _ =>
                  match State.deserialize payee.data with
                  | .error e => (.error e, accounts1)
                  | .ok (.Account source2) =>
                    if source2.token ≠ source1.token then (.error .InvalidArgument, accounts1)
                    else if payee.key ≠ delegate.source then (.error .InvalidArgument, accounts1)
                    else if source2.amount < amount then (.error .InsufficientFunds, accounts1)
                    else
                      match State.serialize
                          (.Account { source2 with amount := wrapSub source2.amount amount })
                          payee.data with
                      | .error e => (.error e, accounts1)
                      | .ok payeeData =>
                        transferDest (setData accounts1 3 payeeData) dest_account amount
                          dest_account_i.data
                  | .ok _ => (.error .InvalidArgument, accounts1)
              | none => transferDest accounts1 dest_account amount dest_account_i.data
        | _, _ => (.error .InvalidArgument, accounts)
  | _ => (.error .NotEnoughAccountKeys, accounts)

/-- Mirrors `State::process_approve`. Account roles: [0] owner of the source,
[1] source, [2] delegate record. -/
def process_approve (accounts : List AccountInfo) (amount : Nat) :
    Except TokenError Unit × List AccountInfo :=
  match accounts with
  | owner_account :: source_account_i :: delegate_account_i :: _ =>
    match State.deserialize source_account_i.data with
    | .error e => (.error e, accounts)
    | .ok s1 =>
      match State.deserialize delegate_account_i.data with
      | .error e => (.error e, accounts)
      | .ok s2 =>
        match s1, s2 with
        | .Account source_account, .Account delegate_account =>
          if source_account.token ≠ delegate_account.token then (.error .InvalidArgument, accounts)
          else if owner_account.key ≠ source_account.owner ∨ owner_account.is_signer = false then
            (.error .InvalidArgument, accounts)
          else if source_account.delegate.isSome = true then (.error .InvalidArgument, accounts)
          else
            match delegate_account.delegate with
            | none => (.error .InvalidArgument, accounts)
            | some d =>
              if source_account_i.key ≠ d.source then (.error .InvalidArgument, accounts)
              else
                let newDelegate : Option TokenAccountDelegate :=
                  some { source := d.source, original_amount := amount }
                match State.serialize
                    (.Account { delegate_account with amount := amount, delegate := newDelegate })
                    delegate_account_i.data with
                | .error e => (.error e, accounts)
                | .ok dd => (.ok (), setData accounts 2 dd)
        | _, _ => (.error .InvalidArgument, accounts)
  | _ => (.error .NotEnoughAccountKeys, accounts)

/-- Mirrors `State::process_setowner`. Account roles: [0] current owner,
[1] target account, [2] new owner. -/
def process_setowner (accounts : List AccountInfo) :
    Except TokenError Unit × List AccountInfo :=
  match accounts with
  | owner_account :: dest_account_i :: new_owner_account :: _ =>
    match State.deserialize dest_account_i.data with
    | .error e => (.error e, accounts)
    | .ok (.Account dest_account) =>
      if owner_account.key ≠ dest_account.owner ∨ owner_account.is_signer = false then
        (.error .InvalidArgument, accounts)
      else
        match State.serialize (.Account { dest_account with owner := new_owner_account.key })
            dest_account_i.data with
        | .error e => (.error e, accounts)
        | .ok dd => (.ok (), setData accounts 1 dd)
    | .ok _ => (.error .InvalidArgument, accounts)
  | _ => (.error .NotEnoughAccountKeys, accounts)

/-- Mirrors `State::process`: decode the command and dispatch. The program
identity parameter is `_program_id` in the source and is never read. -/
def process (_program_id : Pubkey) (accounts : List AccountInfo) (input : List Byte) :
    Except TokenError Unit × List AccountInfo :=
  match Command.deserialize input with
  | .error e => (.error e, accounts)
  | .ok (.NewToken token_info) => process_newtoken accounts token_info
  | .ok .NewTokenAccount => process_newaccount accounts
  | .ok (.Transfer amount) => process_transfer accounts amount
  | .ok (.Approve amount) => process_approve accounts amount
  | .ok .SetOwner => process_setowner accounts

/-- Well-formedness that every real (Rust-typed) key enjoys: 32 bytes. -/
def wfKey (k : Pubkey) : Prop := k.length = 32

/-- Well-formedness of a delegate field as produced by the Rust types. -/
def wfDelegate : Option TokenAccountDelegate → Prop
  | none => True
  | some d => d.source.length = 32 ∧ d.original_amount < 2 ^ 64

/-- Well-formedness of a `TokenAccount` as produced by the Rust types. -/
def wfAccount (a : TokenAccount) : Prop :=
  a.token.length = 32 ∧ a.owner.length = 32 ∧ a.amount < 2 ^ 64 ∧ wfDelegate a.delegate

/-- Well-formedness of a `Token` as produced by the Rust types. -/
def wfToken (t : Token) : Prop := t.supply < 2 ^ 64 ∧ t.decimals < 2 ^ 64

/-- A buffer freshly written by a successful `State.serialize` of an `Account`
or `Token` value decodes to an `Account` (resp. `Token`), never to
`Unallocated` or `Invalid`. -/
def goodData (d : List Byte) : Prop :=
  ∃ st, State.deserialize d = .ok st ∧ st ≠ State.Unallocated ∧ st ≠ State.Invalid

/-- The per-account buffer guarantee of one `process` invocation: every
account either keeps its exact bytes, or its buffer now decodes to a `Token`
or `Account` state (never `Unallocated` or `Invalid`). -/
def Preserves (l l' : List AccountInfo) : Prop :=
  l'.length = l.length ∧
    ∀ (i : Nat) (a a' : AccountInfo),
      l[i]? = some a → l'[i]? = some a' → a'.data = a.data ∨ goodData a'.data

deriving instance DecidableEq for Except

/-- A 121-byte account buffer holding exactly the encoding of `a`. -/
def acctBuf (a : TokenAccount) : List Byte := byte 2 :: encodeAccount a

/-- The instruction bytes of `Transfer(n)`. -/
def transferInput (n : Nat) : List Byte := byte 2 :: leBytes 8 n

/-- The instruction bytes of `SetOwner`. -/
def setOwnerInput : List Byte := [byte 4]

/-- The instruction bytes of `NewTokenAccount`. -/
def newAccountInput : List Byte := [byte 1]

def pkOwner : Pubkey := List.replicate 32 (byte 1)

def pkToken : Pubkey := List.replicate 32 (byte 9)

def pkSrc : Pubkey := List.replicate 32 (byte 3)

def pkDst : Pubkey := List.replicate 32 (byte 4)

def pkX : Pubkey := List.replicate 32 (byte 5)

def pkNew : Pubkey := List.replicate 32 (byte 6)

def pkProg : Pubkey := List.replicate 32 (byte 7)

def pkProg2 : Pubkey := List.replicate 32 (byte 8)

/-- Happy-path transfer scenario of the spec: signer-owner, source holding
100 units, destination holding 0, same token. -/
def acctsHappy : List AccountInfo :=
  [ { key := pkOwner, is_signer := true, data := [], owner := pkProg },
    { key := pkSrc, is_signer := false,
      data := acctBuf { token := pkToken, owner := pkOwner, amount := 100, delegate := none },
      owner := pkProg },
    { key := pkDst, is_signer := false,
      data := acctBuf { token := pkToken, owner := pkDst, amount := 0, delegate := none },
      owner := pkProg } ]

/-- A delegated-transfer scenario whose second (real-funds) leg fails:
the delegate record allows 50, but the real source `pkX` holds only 5. -/
def acctsDelegated : List AccountInfo :=
  [ { key := pkOwner, is_signer := true, data := [], owner := pkProg },
    { key := pkSrc, is_signer := false,
      data := acctBuf { token := pkToken, owner := pkOwner, amount := 50,
                        delegate := some { source := pkX, original_amount := 50 } },
      owner := pkProg },
    { key := pkDst, is_signer := false,
      data := acctBuf { token := pkToken, owner := pkDst, amount := 0, delegate := none },
      owner := pkProg },
    { key := pkX, is_signer := false,
      data := acctBuf { token := pkToken, owner := pkOwner, amount := 5, delegate := none },
      owner := pkProg } ]

/-- A SetOwner scenario in which the target account is owned by the program
`ow` (a parameter, so that independence from the owning program is
expressible). -/
def acctsSetOwner (ow : Pubkey) : List AccountInfo :=
  [ { key := pkOwner, is_signer := true, data := [], owner := pkProg },
    { key := pkSrc, is_signer := false,
      data := acctBuf { token := pkToken, owner := pkOwner, amount := 5, delegate := none },
      owner := ow },
    { key := pkNew, is_signer := false, data := [], owner := pkProg } ]

/-- A CreateAccount scenario with no signer anywhere: a fresh zeroed
121-byte buffer, an owner account, a token account and a delegate source. -/
def acctsNewAccount : List AccountInfo :=
  [ { key := pkNew, is_signer := false, data := byte 0 :: List.replicate 120 (byte 0),
      owner := pkProg },
    { key := pkOwner, is_signer := false, data := [], owner := pkProg },
    { key := pkToken, is_signer := false, data := [], owner := pkProg },
    { key := pkX, is_signer := false, data := [], owner := pkProg } ]

/-- The SetOwner scenario with the current owner present but not flagged as
a signer. -/
def acctsSetOwnerUnsigned : List AccountInfo :=
  [ { key := pkOwner, is_signer := false, data := [], owner := pkProg },
    { key := pkSrc, is_signer := false,
      data := acctBuf { token := pkToken, owner := pkOwner, amount := 5, delegate := none },
      owner := pkProg },
    { key := pkNew, is_signer := false, data := [], owner := pkProg } ]

theorem leBytes_length (w n : Nat) : (leBytes w n).length = w := by
  induction w generalizing n with
  | zero => rfl
  | succ w ih => simp [leBytes, ih]

theorem leVal_cons (b : Byte) (l : List Byte) : leVal (b :: l) = b.val + 256 * leVal l := rfl

theorem leVal_leBytes (w n : Nat) (h : n < 256 ^ w) : leVal (leBytes w n) = n := by
  induction w generalizing n with
  | zero =>
    interval_cases n
    rfl
  | succ w ih =>
    have hdiv : n / 256 < 256 ^ w := by
      rw [Nat.div_lt_iff_lt_mul (by norm_num)]
      calc n < 256 ^ (w + 1) := h
        _ = 256 ^ w * 256 := by ring
    simp only [leBytes, leVal_cons, ih _ hdiv]
    show n % 256 + 256 * (n / 256) = n
    exact Nat.mod_add_div n 256

theorem leVal_lt (l : List Byte) : leVal l < 256 ^ l.length := by
  induction l with
  | nil => simp [leVal]
  | cons b l ih =>
    have hb : b.val < 256 := b.isLt
    simp only [leVal_cons, List.length_cons, pow_succ]
    omega

theorem padKey_length (k : Pubkey) : (padKey k).length = 32 := by
  simp [padKey, List.length_take, List.length_append, List.length_replicate]
  omega

theorem padKey_of_wf {k : Pubkey} (h : wfKey k) : padKey k = k := by
  unfold wfKey at h
  simp [padKey, h, List.take_of_length_le, Nat.le_of_eq h]

theorem encodeToken_length (t : Token) : (encodeToken t).length = 16 := by
  simp [encodeToken, leBytes_length]

theorem encodeDelegate_length (d : Option TokenAccountDelegate) :
    (encodeDelegate d).length = 48 := by
  cases d with
  | none => simp [encodeDelegate]
  | some d => simp [encodeDelegate, padKey_length, leBytes_length]

theorem encodeAccount_length (a : TokenAccount) : (encodeAccount a).length = 120 := by
  simp [encodeAccount, padKey_length, leBytes_length, encodeDelegate_length]

theorem decodeToken_encodeToken {t : Token} (h : wfToken t) (rest : List Byte) :
    decodeToken (encodeToken t ++ rest) = t := by
  obtain ⟨h1, h2⟩ := h
  have e64 : (2 : Nat) ^ 64 = 256 ^ 8 := by norm_num
  rw [e64] at h1 h2
  simp only [encodeToken, List.append_assoc]
  unfold decodeToken
  rw [List.take_left' (leBytes_length 8 t.supply), List.drop_left' (leBytes_length 8 t.supply),
    List.take_left' (leBytes_length 8 t.decimals), leVal_leBytes _ _ h1, leVal_leBytes _ _ h2]

theorem decodeDelegate_encodeDelegate {d : Option TokenAccountDelegate} (h : wfDelegate d)
    (rest : List Byte) : decodeDelegate (encodeDelegate d ++ rest) = d := by
  cases d with
  | none =>
    show decodeDelegate (List.replicate 48 (byte 0) ++ rest) = none
    rw [List.replicate_succ, List.cons_append]
    simp [decodeDelegate, byte]
  | some d =>
    obtain ⟨hs, ha⟩ := h
    have e64 : (2 : Nat) ^ 64 = 256 ^ 8 := by norm_num
    rw [e64] at ha
    have hshape : encodeDelegate (some d) ++ rest =
        byte 1 :: (List.replicate 7 (byte 0) ++ (padKey d.source ++ (leBytes 8 d.original_amount ++ rest))) := by
      simp [encodeDelegate, List.cons_append, List.append_assoc]
    rw [hshape]
    set X := List.replicate 7 (byte 0) ++ (padKey d.source ++ (leBytes 8 d.original_amount ++ rest)) with hX
    have hd8 : (byte 1 :: X).drop 8 = X.drop 7 := rfl
    have hd40 : (byte 1 :: X).drop 40 = X.drop 39 := rfl
    have hX7 : X.drop 7 = padKey d.source ++ (leBytes 8 d.original_amount ++ rest) := by
      rw [hX, List.drop_left' (List.length_replicate 7 (byte 0))]
    have hX39 : X.drop 39 = leBytes 8 d.original_amount ++ rest := by
      have h1 : X.drop 39 = (X.drop 7).drop 32 := by rw [List.drop_drop]
      rw [h1, hX7, List.drop_left' (padKey_length d.source)]
    simp only [decodeDelegate]
    rw [if_neg (by decide)]
    rw [hd8, hd40, hX7, hX39, List.take_left' (padKey_length d.source), padKey_of_wf hs,
      List.take_left' (leBytes_length 8 d.original_amount), leVal_leBytes _ _ ha]

theorem decodeAccount_encodeAccount {a : TokenAccount} (h : wfAccount a) (rest : List Byte) :
    decodeAccount (encodeAccount a ++ rest) = a := by
  obtain ⟨ht, ho, ham, hd⟩ := h
  have e64 : (2 : Nat) ^ 64 = 256 ^ 8 := by norm_num
  rw [e64] at ham
  have hshape : encodeAccount a ++ rest =
      padKey a.token ++ (padKey a.owner ++ (leBytes 8 a.amount ++ (encodeDelegate a.delegate ++ rest))) := by
    simp [encodeAccount, List.append_assoc]
  rw [hshape]
  set P := padKey a.token ++ (padKey a.owner ++ (leBytes 8 a.amount ++ (encodeDelegate a.delegate ++ rest))) with hP
  have h32 : P.drop 32 = padKey a.owner ++ (leBytes 8 a.amount ++ (encodeDelegate a.delegate ++ rest)) := by
    rw [hP, List.drop_left' (padKey_length a.token)]
  have h64 : P.drop 64 = leBytes 8 a.amount ++ (encodeDelegate a.delegate ++ rest) := by
    have h1 : P.drop 64 = (P.drop 32).drop 32 := by rw [List.drop_drop]
    rw [h1, h32, List.drop_left' (padKey_length a.owner)]
  have h72 : P.drop 72 = encodeDelegate a.delegate ++ rest := by
    have h1 : P.drop 72 = (P.drop 64).drop 8 := by rw [List.drop_drop]
    rw [h1, h64, List.drop_left' (leBytes_length 8 a.amount)]
  unfold decodeAccount
  rw [hP, List.take_left' (padKey_length a.token)]
  rw [← hP, h32, h64, h72, List.take_left' (padKey_length a.owner),
    List.take_left' (leBytes_length 8 a.amount), leVal_leBytes _ _ ham,
    padKey_of_wf ht, padKey_of_wf ho, decodeDelegate_encodeDelegate hd]

theorem wf_decodeAccount {p : List Byte} (h : 120 ≤ p.length) : wfAccount (decodeAccount p) := by
  refine ⟨?_, ?_, ?_, ?_⟩
  · simp [decodeAccount, List.length_take]
    omega
  · simp [decodeAccount, List.length_take, List.length_drop]
    omega
  · have h1 : leVal ((p.drop 64).take 8) < 256 ^ ((p.drop 64).take 8).length := leVal_lt _
    have h2 : ((p.drop 64).take 8).length = 8 := by
      simp [List.length_take, List.length_drop]
      omega
    rw [h2] at h1
    calc leVal ((p.drop 64).take 8) < 256 ^ 8 := h1
      _ = 2 ^ 64 := by norm_num
  · show wfDelegate (decodeAccount p).delegate
    have hq : (p.drop 72).length = p.length - 72 := List.length_drop 72 p
    have hdel : (decodeAccount p).delegate = decodeDelegate (p.drop 72) := rfl
    rw [hdel]
    cases hc : p.drop 72 with
    | nil => exact trivial
    | cons b q =>
      rw [show decodeDelegate (b :: q) = (if b.val = 0 then none else
          some { source := ((b :: q).drop 8).take 32,
                 original_amount := leVal (((b :: q).drop 40).take 8) }) from rfl]
      by_cases hb : b.val = 0
      · rw [if_pos hb]
        exact trivial
      · rw [if_neg hb]
        refine ⟨?_, ?_⟩
        · simp [List.length_take, List.length_drop]
          have : (p.drop 72).length = q.length + 1 := by rw [hc]; rfl
          omega
        · have h1 : leVal (((b :: q).drop 40).take 8) < 256 ^ (((b :: q).drop 40).take 8).length :=
            leVal_lt _
          have h2 : (((b :: q).drop 40).take 8).length = 8 := by
            simp [List.length_take, List.length_drop]
            have : (p.drop 72).length = q.length + 1 := by rw [hc]; rfl
            omega
          rw [h2] at h1
          calc leVal (((b :: q).drop 40).take 8) < 256 ^ 8 := h1
            _ = 2 ^ 64 := by norm_num

theorem serialize_Account_eq {buf : List Byte} (a : TokenAccount) (h : 121 ≤ buf.length) :
    State.serialize (.Account a) buf = .ok (byte 2 :: (encodeAccount a ++ buf.drop 121)) := by
  unfold State.serialize
  rw [if_neg (by omega)]
  show (if buf.length < 1 + accountSize then _ else _) = _
  rw [if_neg (by unfold accountSize; omega)]
  norm_num [accountSize]

theorem serialize_Token_eq {buf : List Byte} (t : Token) (h : 17 ≤ buf.length) :
    State.serialize (.Token t) buf = .ok (byte 1 :: (encodeToken t ++ buf.drop 17)) := by
  unfold State.serialize
  rw [if_neg (by omega)]
  show (if buf.length < 1 + tokenSize then _ else _) = _
  rw [if_neg (by unfold tokenSize; omega)]
  norm_num [tokenSize]

theorem deserialize_cons_two {rest : List Byte} (h : 120 ≤ rest.length) :
    State.deserialize (byte 2 :: rest) = .ok (.Account (decodeAccount rest)) := by
  show (if rest.length < accountSize then _ else _) = _
  rw [if_neg (by unfold accountSize; omega)]

theorem deserialize_cons_one {rest : List Byte} (h : 16 ≤ rest.length) :
    State.deserialize (byte 1 :: rest) = .ok (.Token (decodeToken rest)) := by
  show (if rest.length < tokenSize then _ else _) = _
  rw [if_neg (by unfold tokenSize; omega)]

theorem deserialize_encoded_Account {a : TokenAccount} (hw : wfAccount a) (rest : List Byte) :
    State.deserialize (byte 2 :: (encodeAccount a ++ rest)) = .ok (.Account a) := by
  rw [deserialize_cons_two (by simp [encodeAccount_length]),
    decodeAccount_encodeAccount hw]

theorem deserialize_encoded_Token {t : Token} (hw : wfToken t) (rest : List Byte) :
    State.deserialize (byte 1 :: (encodeToken t ++ rest)) = .ok (.Token t) := by
  rw [deserialize_cons_one (by simp [encodeToken_length]),
    decodeToken_encodeToken hw]

theorem deserialize_Account_inv {buf : List Byte} {a : TokenAccount}
    (h : State.deserialize buf = .ok (.Account a)) :
    121 ≤ buf.length ∧ wfAccount a ∧ a = decodeAccount buf.tail := by
  unfold State.deserialize at h
  split at h
  · exact absurd h (by simp)
  · rename_i b rest
    split at h
    · exact absurd h (by simp)
    · split at h
      · exact absurd h (by simp)
      · simp only [Except.ok.injEq] at h
        cases h
    · rename_i hlen
      split at h
      · exact absurd h (by simp)
      · simp only [Except.ok.injEq, State.Account.injEq] at h
        subst h
        have hl : ¬ rest.length < accountSize := by assumption
        unfold accountSize at hl
        refine ⟨by simp; omega, wf_decodeAccount (by omega), rfl⟩
    · exact absurd h (by simp)
    · exact absurd h (by simp)

theorem deserialize_Token_inv {buf : List Byte} {t : Token}
    (h : State.deserialize buf = .ok (.Token t)) : 17 ≤ buf.length := by
  unfold State.deserialize at h
  split at h
  · exact absurd h (by simp)
  · rename_i b rest
    split at h
    · exact absurd h (by simp)
    · rename_i hlen
      split at h
      · exact absurd h (by simp)
      · have hl : ¬ rest.length < tokenSize := by assumption
        unfold tokenSize at hl
        simp
        omega
    · split at h
      · exact absurd h (by simp)
      · simp only [Except.ok.injEq] at h
        cases h
    · exact absurd h (by simp)
    · exact absurd h (by simp)

theorem goodData_serialize_Account {a : TokenAccount} {buf out : List Byte}
    (h : State.serialize (.Account a) buf = .ok out) : goodData out := by
  simp only [State.serialize] at h
  split at h
  · cases h
  · split at h
    · cases h
    · simp only [Except.ok.injEq] at h
      subst h
      refine ⟨.Account (decodeAccount (encodeAccount a ++ buf.drop (1 + accountSize))), ?_, by simp, by simp⟩
      exact deserialize_cons_two (by simp [encodeAccount_length])

theorem goodData_serialize_Token {t : Token} {buf out : List Byte}
    (h : State.serialize (.Token t) buf = .ok out) : goodData out := by
  simp only [State.serialize] at h
  split at h
  · cases h
  · split at h
    · cases h
    · simp only [Except.ok.injEq] at h
      subst h
      refine ⟨.Token (decodeToken (encodeToken t ++ buf.drop (1 + tokenSize))), ?_, by simp, by simp⟩
      exact deserialize_cons_one (by simp [encodeToken_length])

theorem wf_decodeToken (p : List Byte) : wfToken (decodeToken p) := by
  constructor
  · have h1 : leVal (p.take 8) < 256 ^ (p.take 8).length := leVal_lt _
    have h2 : (p.take 8).length ≤ 8 := by simp [List.length_take]
    calc leVal (p.take 8) < 256 ^ (p.take 8).length := h1
      _ ≤ 256 ^ 8 := Nat.pow_le_pow_right (by norm_num) h2
      _ = 2 ^ 64 := by norm_num
  · have h1 : leVal ((p.drop 8).take 8) < 256 ^ ((p.drop 8).take 8).length := leVal_lt _
    have h2 : ((p.drop 8).take 8).length ≤ 8 := by simp [List.length_take]
    calc leVal ((p.drop 8).take 8) < 256 ^ ((p.drop 8).take 8).length := h1
      _ ≤ 256 ^ 8 := Nat.pow_le_pow_right (by norm_num) h2
      _ = 2 ^ 64 := by norm_num

theorem setData_length (l : List AccountInfo) (i : Nat) (d : List Byte) :
    (setData l i d).length = l.length := by
  induction l generalizing i with
  | nil => rfl
  | cons a rest ih =>
    cases i with
    | zero => rfl
    | succ n => simp [setData, ih]

theorem getElem?_setData_ne (l : List AccountInfo) (i j : Nat) (d : List Byte) (h : j ≠ i) :
    (setData l i d)[j]? = l[j]? := by
  induction l generalizing i j with
  | nil => rfl
  | cons a rest ih =>
    cases i with
    | zero =>
      cases j with
      | zero => exact absurd rfl h
      | succ m => simp [setData]
    | succ n =>
      cases j with
      | zero => simp [setData]
      | succ m => simp [setData, ih rest.length n, ih n m (fun hh => h (by rw [hh]))]

theorem getElem?_setData_eq (l : List AccountInfo) (i : Nat) (d : List Byte) :
    (setData l i d)[i]? = (l[i]?).map (fun a => { a with data := d }) := by
  induction l generalizing i with
  | nil => rfl
  | cons a rest ih =>
    cases i with
    | zero => simp [setData]
    | succ n => simp [setData, ih n]

theorem preserves_rfl (l : List AccountInfo) : Preserves l l := by
  refine ⟨rfl, fun i a a' h1 h2 => ?_⟩
  rw [h1] at h2
  cases h2
  exact Or.inl rfl

theorem preserves_trans {l1 l2 l3 : List AccountInfo} (h12 : Preserves l1 l2)
    (h23 : Preserves l2 l3) : Preserves l1 l3 := by
  obtain ⟨hl12, hp12⟩ := h12
  obtain ⟨hl23, hp23⟩ := h23
  refine ⟨hl23.trans hl12, fun i a a' h1 h3 => ?_⟩
  have hi : i < l2.length := by
    obtain ⟨hlt, hv⟩ := List.getElem?_eq_some.mp h1
    omega
  have hmid : l2[i]? = some (l2.get ⟨i, hi⟩) := List.getElem?_eq_getElem hi
  rcases hp12 i a _ h1 hmid with hu | hg
  · rcases hp23 i _ a' hmid h3 with hu' | hg'
    · exact Or.inl (hu'.trans hu)
    · exact Or.inr hg'
  · rcases hp23 i _ a' hmid h3 with hu' | hg'
    · exact Or.inr (hu' ▸ hg)
    · exact Or.inr hg'

theorem preserves_setData (l : List AccountInfo) (i : Nat) (d : List Byte) (h : goodData d) :
    Preserves l (setData l i d) := by
  refine ⟨setData_length l i d, fun j a a' h1 h2 => ?_⟩
  by_cases hj : j = i
  · subst hj
    rw [getElem?_setData_eq, h1] at h2
    cases h2
    exact Or.inr h
  · rw [getElem?_setData_ne l i j d hj, h1] at h2
    cases h2
    exact Or.inl rfl

theorem wrapSub_of_le {a b : Nat} (h : b ≤ a) (ha : a < 2 ^ 64) : wrapSub a b = a - b := by
  unfold wrapSub
  omega

theorem wrapSub_of_lt {a b : Nat} (h : a < b) (hb : b < 2 ^ 64) :
    wrapSub a b = a + 2 ^ 64 - b := by
  unfold wrapSub
  omega

theorem preserves_transferDest (accounts : List AccountInfo) (d : TokenAccount) (amount : Nat)
    (buf : List Byte) : Preserves accounts (transferDest accounts d amount buf).2 := by
  unfold transferDest
  split
  · exact preserves_rfl _
  · rename_i dd hser
    exact preserves_setData _ _ _ (goodData_serialize_Account hser)

theorem preserves_setowner (accounts : List AccountInfo) :
    Preserves accounts (process_setowner accounts).2 := by
  unfold process_setowner
  split
  · split
    · exact preserves_rfl _
    · split
      · exact preserves_rfl _
      · split
        · exact preserves_rfl _
        · rename_i dd hser
          exact preserves_setData _ _ _ (goodData_serialize_Account hser)
    · exact preserves_rfl _
  · exact preserves_rfl _

theorem preserves_newtoken (accounts : List AccountInfo) (t : Token) :
    Preserves accounts (process_newtoken accounts t).2 := by
  unfold process_newtoken
  split
  · split
    · exact preserves_rfl _
    · split
      · exact preserves_rfl _
      · split
        · exact preserves_rfl _
        · split
          · exact preserves_rfl _
          · split
            · exact preserves_rfl _
            · rename_i destData hser1
              dsimp only
              split
              · exact preserves_setData _ _ _ (goodData_serialize_Account hser1)
              · split
                · exact preserves_setData _ _ _ (goodData_serialize_Account hser1)
                · split
                  · exact preserves_setData _ _ _ (goodData_serialize_Account hser1)
                  · rename_i newData hser2
                    exact preserves_trans
                      (preserves_setData _ _ _ (goodData_serialize_Account hser1))
                      (preserves_setData _ _ _ (goodData_serialize_Token hser2))
    · exact preserves_rfl _
  · exact preserves_rfl _

theorem preserves_newaccount (accounts : List AccountInfo) :
    Preserves accounts (process_newaccount accounts).2 := by
  unfold process_newaccount
  split
  · split
    · exact preserves_rfl _
    · split
      · exact preserves_rfl _
      · dsimp only
        split
        · exact preserves_rfl _
        · rename_i newData hser
          exact preserves_setData _ _ _ (goodData_serialize_Account hser)
  · exact preserves_rfl _

theorem preserves_approve (accounts : List AccountInfo) (amount : Nat) :
    Preserves accounts (process_approve accounts amount).2 := by
  unfold process_approve
  split
  · split
    · exact preserves_rfl _
    · split
      · exact preserves_rfl _
      · split
        · split
          · exact preserves_rfl _
          · split
            · exact preserves_rfl _
            · split
              · exact preserves_rfl _
              · split
                · exact preserves_rfl _
                · split
                  · exact preserves_rfl _
                  · dsimp only
                    split
                    · exact preserves_rfl _
                    · rename_i dd hser
                      exact preserves_setData _ _ _ (goodData_serialize_Account hser)
        · exact preserves_rfl _
  · exact preserves_rfl _

theorem preserves_transfer (accounts : List AccountInfo) (amount : Nat) :
    Preserves accounts (process_transfer accounts amount).2 := by
  unfold process_transfer
  split
  · split
    · exact preserves_rfl _
    · split
      · exact preserves_rfl _
      · split
        · split
          · exact preserves_rfl _
          · split
            · exact preserves_rfl _
            · split
              · exact preserves_rfl _
              · split
                · exact preserves_rfl _
                · dsimp only
                  split
                  · exact preserves_rfl _
                  · rename_i sourceData hser1
                    split
                    · split
                      · exact preserves_setData _ _ _ (goodData_serialize_Account hser1)
                      · split
                        · exact preserves_setData _ _ _ (goodData_serialize_Account hser1)
                        · split
                          · exact preserves_setData _ _ _ (goodData_serialize_Account hser1)
                          · split
                            · exact preserves_setData _ _ _ (goodData_serialize_Account hser1)
                            · split
                              · exact preserves_setData _ _ _ (goodData_serialize_Account hser1)
                              · split
                                · exact preserves_setData _ _ _ (goodData_serialize_Account hser1)
                                · rename_i payeeData hser2
                                  exact preserves_trans
                                    (preserves_trans
                                      (preserves_setData _ _ _ (goodData_serialize_Account hser1))
                                      (preserves_setData _ _ _ (goodData_serialize_Account hser2)))
                                    (preserves_transferDest _ _ _ _)
                        · exact preserves_setData _ _ _ (goodData_serialize_Account hser1)
                    · exact preserves_trans
                        (preserves_setData _ _ _ (goodData_serialize_Account hser1))
                        (preserves_transferDest _ _ _ _)
        · exact preserves_rfl _
  · exact preserves_rfl _

theorem preserves_process (pid : Pubkey) (accounts : List AccountInfo) (input : List Byte) :
    Preserves accounts (process pid accounts input).2 := by
  unfold process
  split
  · exact preserves_rfl _
  · exact preserves_newtoken _ _
  · exact preserves_newaccount _
  · exact preserves_transfer _ _
  · exact preserves_approve _ _
  · exact preserves_setowner _

theorem wrapSub_lt (a b : Nat) : wrapSub a b < 2 ^ 64 := by
  unfold wrapSub
  exact Nat.mod_lt _ (by norm_num)

theorem transfer_amount_bound {input : List Byte} {amt : Nat}
    (h : Command.deserialize input = .ok (.Transfer amt)) : amt < 2 ^ 64 := by
  unfold Command.deserialize at h
  split at h
  · exact absurd h (by simp)
  · rename_i b rest
    split at h
    · split at h
      · exact absurd h (by simp)
      · simp only [Except.ok.injEq] at h
        cases h
    · simp only [Except.ok.injEq] at h
      cases h
    · split at h
      · exact absurd h (by simp)
      · simp only [Except.ok.injEq, Command.Transfer.injEq] at h
        subst h
        calc leVal (rest.take 8) < 256 ^ (rest.take 8).length := leVal_lt _
          _ ≤ 256 ^ 8 := Nat.pow_le_pow_right (by norm_num) (by simp [List.length_take])
          _ = 2 ^ 64 := by norm_num
    · split at h
      · exact absurd h (by simp)
      · simp only [Except.ok.injEq] at h
        cases h
    · simp only [Except.ok.injEq] at h
      cases h
    · exact absurd h (by simp)

theorem setowner_cases (accounts : List AccountInfo) :
    (process_setowner accounts).2 = accounts ∨ (process_setowner accounts).1 = .ok () := by
  unfold process_setowner
  split
  · split
    · exact Or.inl rfl
    · split
      · exact Or.inl rfl
      · split
        · exact Or.inl rfl
        · exact Or.inr rfl
    · exact Or.inl rfl
  · exact Or.inl rfl

theorem newaccount_cases (accounts : List AccountInfo) :
    (process_newaccount accounts).2 = accounts ∨ (process_newaccount accounts).1 = .ok () := by
  unfold process_newaccount
  split
  · split
    · exact Or.inl rfl
    · split
      · exact Or.inl rfl
      · dsimp only
        split
        · exact Or.inl rfl
        · exact Or.inr rfl
  · exact Or.inl rfl

theorem approve_cases (accounts : List AccountInfo) (amount : Nat) :
    (process_approve accounts amount).2 = accounts ∨ (process_approve accounts amount).1 = .ok () := by
  unfold process_approve
  split
  · split
    · exact Or.inl rfl
    · split
      · exact Or.inl rfl
      · split
        · split
          · exact Or.inl rfl
          · split
            · exact Or.inl rfl
            · split
              · exact Or.inl rfl
              · split
                · exact Or.inl rfl
                · split
                  · exact Or.inl rfl
                  · dsimp only
                    split
                    · exact Or.inl rfl
                    · exact Or.inr rfl
        · exact Or.inl rfl
  · exact Or.inl rfl

theorem transfer_cases (accounts : List AccountInfo) (amount : Nat) :
    (process_transfer accounts amount).2 = accounts ∨
      (process_transfer accounts amount).1 = .ok () ∨
      ∃ (a1 : AccountInfo) (s : TokenAccount), accounts[1]? = some a1 ∧
        State.deserialize a1.data = .ok (.Account s) ∧ s.delegate ≠ none := by
  unfold process_transfer
  split
  · rename_i a0 a1 a2 rest
    split
    · exact Or.inl rfl
    · split
      · exact Or.inl rfl
      · split
        · rename_i s1 s2 src dst
          split
          · exact Or.inl rfl
          · split
            · exact Or.inl rfl
            · split
              · exact Or.inl rfl
              · split
                · exact Or.inl rfl
                · dsimp only
                  split
                  · exact Or.inl rfl
                  · rename_i sourceData hser1
                    split
                    · rename_i delegate hdel
                      exact Or.inr (Or.inr ⟨a1, s1, rfl, src, by simp [hdel]⟩)
                    · rename_i hdel
                      unfold transferDest
                      split
                      · rename_i e hserd
                        exact absurd hserd (by
                          obtain ⟨hlen, hwf, hval⟩ := deserialize_Account_inv dst
                          rw [serialize_Account_eq _ hlen]
                          simp)
                      · exact Or.inr (Or.inl rfl)
        · exact Or.inl rfl
  · exact Or.inl rfl

set_option maxRecDepth 100000 in
/-- Claim C1: the spec's Transfer happy path (source 100, destination 0, same
token, signed by the source owner, `Transfer(40)`) is NOT implemented by the
code: `process` succeeds and decrements the source to 60, but the final
destination write executes `dest_account.amount -= amount`, so the
destination ends at `2 ^ 64 - 40` (u64 wrap), not 40. This theorem evaluates
the code at that failing input. -/
theorem transfer_happy_path_dest_decremented :
    (process pkProg acctsHappy (transferInput 40)).1 = .ok () ∧
    State.deserialize
        (((process pkProg acctsHappy (transferInput 40)).2.map AccountInfo.data).getD 1 []) =
      .ok (.Account { token := pkToken, owner := pkOwner, amount := 60, delegate := none }) ∧
    State.deserialize
        (((process pkProg acctsHappy (transferInput 40)).2.map AccountInfo.data).getD 2 []) =
      .ok (.Account { token := pkToken, owner := pkDst, amount := 2 ^ 64 - 40, delegate := none }) := by
  refine ⟨by decide, by decide, by decide⟩

set_option maxRecDepth 100000 in
/-- Claim C2 counterexample: a delegated Transfer whose second (real-funds)
leg fails with `InsufficientFunds` has already overwritten the delegate
record at accounts[1] (its allowance is decremented from 50 to 40), so an
error return does NOT leave every buffer unchanged. -/
theorem transfer_delegated_error_mutates_source :
    (process pkProg acctsDelegated (transferInput 10)).1 = .error .InsufficientFunds ∧
    ((process pkProg acctsDelegated (transferInput 10)).2.map AccountInfo.data).getD 1 [] ≠
      (acctsDelegated.map AccountInfo.data).getD 1 [] ∧
    State.deserialize
        (((process pkProg acctsDelegated (transferInput 10)).2.map AccountInfo.data).getD 1 []) =
      .ok (.Account { token := pkToken, owner := pkOwner, amount := 40,
                      delegate := some { source := pkX, original_amount := 50 } }) := by
  refine ⟨by decide, by decide, by decide⟩

/-- Claim C2 amended: an error return leaves every account buffer unchanged
for CreateAccount, Approve, SetOwner, and for a Transfer whose source is not
a delegate record; a delegated Transfer failing after its first leg (and a
MintToken failing its new-account check) can error after a write. -/
theorem process_error_leaves_buffers_unchanged_amended :
    (∀ (pid : Pubkey) (accounts : List AccountInfo) (input : List Byte) (e : TokenError),
        Command.deserialize input = .ok .NewTokenAccount →
        (process pid accounts input).1 = .error e →
        (process pid accounts input).2 = accounts) ∧
    (∀ (pid : Pubkey) (accounts : List AccountInfo) (input : List Byte) (amt : Nat)
        (e : TokenError),
        Command.deserialize input = .ok (.Approve amt) →
        (process pid accounts input).1 = .error e →
        (process pid accounts input).2 = accounts) ∧
    (∀ (pid : Pubkey) (accounts : List AccountInfo) (input : List Byte) (e : TokenError),
        Command.deserialize input = .ok .SetOwner →
        (process pid accounts input).1 = .error e →
        (process pid accounts input).2 = accounts) ∧
    (∀ (pid : Pubkey) (accounts : List AccountInfo) (input : List Byte) (amt : Nat)
        (e : TokenError),
        Command.deserialize input = .ok (.Transfer amt) →
        (∀ (a1 : AccountInfo) (s : TokenAccount), accounts[1]? = some a1 →
          State.deserialize a1.data = .ok (.Account s) → s.delegate = none) →
        (process pid accounts input).1 = .error e →
        (process pid accounts input).2 = accounts) := by
  refine ⟨?_, ?_, ?_, ?_⟩
  · intro pid accounts input e hcmd herr
    have hp : process pid accounts input = process_newaccount accounts := by
      unfold process
      rw [hcmd]
    rw [hp] at herr ⊢
    rcases newaccount_cases accounts with h | h
    · exact h
    · rw [h] at herr
      cases herr
  · intro pid accounts input amt e hcmd herr
    have hp : process pid accounts input = process_approve accounts amt := by
      unfold process
      rw [hcmd]
    rw [hp] at herr ⊢
    rcases approve_cases accounts amt with h | h
    · exact h
    · rw [h] at herr
      cases herr
  · intro pid accounts input e hcmd herr
    have hp : process pid accounts input = process_setowner accounts := by
      unfold process
      rw [hcmd]
    rw [hp] at herr ⊢
    rcases setowner_cases accounts with h | h
    · exact h
    · rw [h] at herr
      cases herr
  · intro pid accounts input amt e hcmd hnodel herr
    have hp : process pid accounts input = process_transfer accounts amt := by
      unfold process
      rw [hcmd]
    rw [hp] at herr ⊢
    rcases transfer_cases accounts amt with h | h | ⟨a1, s, hget, hdes, hsome⟩
    · exact h
    · rw [h] at herr
      cases herr
    · exact absurd (hnodel a1 s hget hdes) hsome

set_option maxRecDepth 100000 in
/-- Witness for the amended C2 theorem: an unsigned SetOwner fails with
`InvalidArgument` and leaves the account list exactly as it was. -/
theorem process_error_leaves_buffers_unchanged_amended_witness :
    (process pkProg acctsSetOwnerUnsigned setOwnerInput).2 = acctsSetOwnerUnsigned :=
  process_error_leaves_buffers_unchanged_amended.2.2.1 pkProg acctsSetOwnerUnsigned
    setOwnerInput .InvalidArgument (by decide) (by decide)

set_option maxRecDepth 100000 in
/-- Claim C3 counterexample: the processor does not treat a buffer owned by a
different program as `Invalid` — a SetOwner on an account whose owning
program `pkProg2` differs from the program identity `pkProg` passed to
`process` still succeeds, reads the buffer as a `TokenAccountState`, and
mutates it. -/
theorem foreign_owned_account_mutated :
    pkProg2 ≠ pkProg ∧
    ((acctsSetOwner pkProg2).map AccountInfo.owner).getD 1 [] = pkProg2 ∧
    (process pkProg (acctsSetOwner pkProg2) setOwnerInput).1 = .ok () ∧
    ((process pkProg (acctsSetOwner pkProg2) setOwnerInput).2.map AccountInfo.data).getD 1 [] ≠
      ((acctsSetOwner pkProg2).map AccountInfo.data).getD 1 [] ∧
    State.deserialize
        (((process pkProg (acctsSetOwner pkProg2) setOwnerInput).2.map AccountInfo.data).getD 1 []) =
      .ok (.Account { token := pkToken, owner := pkNew, amount := 5, delegate := none }) := by
  refine ⟨by decide, by decide, by decide, by decide, by decide⟩

set_option maxRecDepth 100000 in
set_option maxHeartbeats 2000000 in
/-- Claim C3 amended: the processor never consults program ownership at all —
`process` is literally independent of the program identity argument, and an
account's buffer is decoded from its bytes alone, so the same instruction
succeeds and mutates the account identically for every owning program
(including foreign ones). -/
theorem process_ignores_owning_program :
    (∀ (pid pid' : Pubkey) (accounts : List AccountInfo) (input : List Byte),
        process pid accounts input = process pid' accounts input) ∧
    (∀ ow : Pubkey,
        (process pkProg (acctsSetOwner ow) setOwnerInput).1 = .ok () ∧
        State.deserialize
            (((process pkProg (acctsSetOwner ow) setOwnerInput).2.map AccountInfo.data).getD 1 []) =
          .ok (.Account { token := pkToken, owner := pkNew, amount := 5, delegate := none })) :=
  ⟨fun _ _ _ _ => rfl, fun ow => ⟨rfl, rfl⟩⟩

set_option maxRecDepth 100000 in
/-- Claim C5: contrary to the spec (and the repository's own
`serde_expect_fail` test), `State::serialize` does NOT fail on `Unallocated`
or `Invalid`: it succeeds, writing discriminant byte 0 (resp. 3). This
theorem evaluates the code at the failing inputs. -/
theorem serialize_unallocated_invalid_succeeds :
    State.serialize State.Unallocated (List.replicate 256 (byte 0)) =
      .ok (byte 0 :: List.replicate 255 (byte 0)) ∧
    State.serialize State.Invalid (List.replicate 256 (byte 0)) =
      .ok (byte 3 :: List.replicate 255 (byte 0)) := by
  refine ⟨by decide, by decide⟩

set_option maxRecDepth 100000 in
/-- Claim C6: `State::deserialize` behaves as claimed on the empty buffer,
on too-short discriminant-1/2 buffers, on discriminant 0 with trailing
bytes, and on discriminants 4 and 255 — but on discriminant 3 it returns
`Ok(Invalid)` rather than the `MalformedInput` error the claim (and the
repository's own `serde_expect_fail` test, which asserts
`State::deserialize(&[3]).is_err()`) requires. -/
theorem deserialize_discriminant_three_accepted :
    State.deserialize [byte 3] = .ok .Invalid ∧
    State.deserialize [] = .error .InvalidUserdata ∧
    State.deserialize [byte 1, byte 2] = .error .InvalidUserdata ∧
    State.deserialize (byte 2 :: List.replicate 100 (byte 0)) = .error .InvalidUserdata ∧
    State.deserialize (byte 0 :: List.replicate 7 (byte 5)) = .ok .Unallocated ∧
    State.deserialize [byte 4] = .error .InvalidUserdata ∧
    State.deserialize [byte 255] = .error .InvalidUserdata := by
  refine ⟨by decide, by decide, by decide, by decide, by decide, by decide, by decide⟩

/-- Claim C4: for Transfer, Approve and SetOwner, when accounts[0] is not a
signer or its identity differs from the owner recorded in the source (resp.
target) `TokenAccountState`, `process` returns `InvalidArgument` and the
account list — in particular the targeted buffer — is left unchanged
(stated for account lists whose relevant accounts decode to
`TokenAccountState`, as the claim presupposes). -/
theorem unauthorized_owner_rejected :
    (∀ (pid : Pubkey) (amt : Nat) (input : List Byte) (a0 a1 a2 : AccountInfo)
        (rest : List AccountInfo) (s d : TokenAccount),
        Command.deserialize input = .ok (.Transfer amt) →
        State.deserialize a1.data = .ok (.Account s) →
        State.deserialize a2.data = .ok (.Account d) →
        (a0.is_signer = false ∨ a0.key ≠ s.owner) →
        process pid (a0 :: a1 :: a2 :: rest) input =
          (.error .InvalidArgument, a0 :: a1 :: a2 :: rest)) ∧
    (∀ (pid : Pubkey) (amt : Nat) (input : List Byte) (a0 a1 a2 : AccountInfo)
        (rest : List AccountInfo) (s dg : TokenAccount),
        Command.deserialize input = .ok (.Approve amt) →
        State.deserialize a1.data = .ok (.Account s) →
        State.deserialize a2.data = .ok (.Account dg) →
        (a0.is_signer = false ∨ a0.key ≠ s.owner) →
        process pid (a0 :: a1 :: a2 :: rest) input =
          (.error .InvalidArgument, a0 :: a1 :: a2 :: rest)) ∧
    (∀ (pid : Pubkey) (input : List Byte) (a0 a1 a2 : AccountInfo)
        (rest : List AccountInfo) (d : TokenAccount),
        Command.deserialize input = .ok .SetOwner →
        State.deserialize a1.data = .ok (.Account d) →
        (a0.is_signer = false ∨ a0.key ≠ d.owner) →
        process pid (a0 :: a1 :: a2 :: rest) input =
          (.error .InvalidArgument, a0 :: a1 :: a2 :: rest)) := by
  refine ⟨?_, ?_, ?_⟩
  · intro pid amt input a0 a1 a2 rest s d hcmd hs hd hbad
    have hp : process pid (a0 :: a1 :: a2 :: rest) input =
        process_transfer (a0 :: a1 :: a2 :: rest) amt := by
      unfold process
      rw [hcmd]
    rw [hp]
    unfold process_transfer
    dsimp only
    rw [hs, hd]
    dsimp only
    by_cases h1 : s.token ≠ d.token
    · rw [if_pos h1]
    · rw [if_neg h1]
      by_cases h2 : d.delegate.isSome = true
      · rw [if_pos h2]
      · rw [if_neg h2, if_pos hbad]
  · intro pid amt input a0 a1 a2 rest s dg hcmd hs hg hbad
    have hp : process pid (a0 :: a1 :: a2 :: rest) input =
        process_approve (a0 :: a1 :: a2 :: rest) amt := by
      unfold process
      rw [hcmd]
    rw [hp]
    unfold process_approve
    dsimp only
    rw [hs, hg]
    dsimp only
    by_cases h1 : s.token ≠ dg.token
    · rw [if_pos h1]
    · rw [if_neg h1, if_pos hbad.symm]
  · intro pid input a0 a1 a2 rest d hcmd hdst hbad
    have hp : process pid (a0 :: a1 :: a2 :: rest) input =
        process_setowner (a0 :: a1 :: a2 :: rest) := by
      unfold process
      rw [hcmd]
    rw [hp]
    unfold process_setowner
    dsimp only
    rw [hdst]
    dsimp only
    rw [if_pos hbad.symm]

set_option maxRecDepth 100000 in
/-- Witness for C4: the unsigned SetOwner scenario is rejected with
`InvalidArgument` and leaves the accounts untouched. -/
theorem unauthorized_owner_rejected_witness :
    process pkProg acctsSetOwnerUnsigned setOwnerInput =
      (.error .InvalidArgument, acctsSetOwnerUnsigned) :=
  unauthorized_owner_rejected.2.2 pkProg setOwnerInput
    { key := pkOwner, is_signer := false, data := [], owner := pkProg }
    { key := pkSrc, is_signer := false,
      data := acctBuf { token := pkToken, owner := pkOwner, amount := 5, delegate := none },
      owner := pkProg }
    { key := pkNew, is_signer := false, data := [], owner := pkProg } []
    { token := pkToken, owner := pkOwner, amount := 5, delegate := none }
    (by decide) (by decide) (Or.inl rfl)

/-- Claim C7: serialize-then-deserialize round trip for `Token` and
`Account` states into any buffer of at least `1 + sizeof(payload)` bytes
(with the well-formedness every Rust-typed value enjoys: `u64` fields below
`2 ^ 64` and 32-byte keys). -/
theorem serialize_roundtrip :
    (∀ (t : Token) (buf : List Byte), wfToken t → 1 + tokenSize ≤ buf.length →
      ∃ out, State.serialize (.Token t) buf = .ok out ∧
        State.deserialize out = .ok (.Token t)) ∧
    (∀ (a : TokenAccount) (buf : List Byte), wfAccount a → 1 + accountSize ≤ buf.length →
      ∃ out, State.serialize (.Account a) buf = .ok out ∧
        State.deserialize out = .ok (.Account a)) := by
  constructor
  · intro t buf hw hl
    exact ⟨_, serialize_Token_eq t (by unfold tokenSize at hl; omega),
      deserialize_encoded_Token hw _⟩
  · intro a buf hw hl
    exact ⟨_, serialize_Account_eq a (by unfold accountSize at hl; omega),
      deserialize_encoded_Account hw _⟩

set_option maxRecDepth 100000 in
/-- Witness for C7: concrete round trips of the repository test's values
(`Token { supply := 12345, decimals := 2 }` and an account holding 123). -/
theorem serialize_roundtrip_witness :
    (∃ out, State.serialize (.Token { supply := 12345, decimals := 2 })
        (List.replicate 17 (byte 0)) = .ok out ∧
      State.deserialize out = .ok (.Token { supply := 12345, decimals := 2 })) ∧
    (∃ out, State.serialize
        (.Account { token := pkToken, owner := pkOwner, amount := 123, delegate := none })
        (List.replicate 121 (byte 0)) = .ok out ∧
      State.deserialize out =
        .ok (.Account { token := pkToken, owner := pkOwner, amount := 123, delegate := none })) :=
  ⟨serialize_roundtrip.1 { supply := 12345, decimals := 2 } (List.replicate 17 (byte 0))
      ⟨by norm_num, by norm_num⟩ (by decide),
    serialize_roundtrip.2 { token := pkToken, owner := pkOwner, amount := 123, delegate := none }
      (List.replicate 121 (byte 0)) ⟨by decide, by decide, by norm_num, trivial⟩ (by decide)⟩

/-- Claim C8: a successful `process` never writes `Unallocated` or `Invalid`
into any account buffer — after success every account either keeps its exact
bytes or holds a buffer decoding to a `Token` or `Account` state, so a
buffer holding a `Token` or `Account` never transitions back to
`Unallocated`/`Invalid`. -/
theorem process_success_never_writes_gate_states (pid : Pubkey)
    (accounts : List AccountInfo) (input : List Byte) (accounts' : List AccountInfo)
    (h : process pid accounts input = (.ok (), accounts')) :
    accounts'.length = accounts.length ∧
      ∀ (i : Nat) (a a' : AccountInfo), accounts[i]? = some a → accounts'[i]? = some a' →
        a'.data = a.data ∨ ∃ st, State.deserialize a'.data = .ok st ∧
          st ≠ State.Unallocated ∧ st ≠ State.Invalid := by
  have hp := preserves_process pid accounts input
  rw [h] at hp
  exact hp

set_option maxRecDepth 100000 in
/-- Witness for C8: the successful (buggy, but successful) happy-path
transfer keeps the account-list length at 3. -/
theorem process_success_never_writes_gate_states_witness :
    (process pkProg acctsHappy (transferInput 40)).2.length = acctsHappy.length :=
  (process_success_never_writes_gate_states pkProg acctsHappy (transferInput 40)
    (process pkProg acctsHappy (transferInput 40)).2 (by decide)).1

/-- Claim C9: CreateAccount inspects no signer flag: for any three-or-more
accounts whose first decodes to `Unallocated` from a large-enough buffer —
with no assumption whatsoever on any `is_signer` flag — `process` succeeds
and writes the encoding of
`TokenAccountState { token := accounts[2].key, owner := accounts[1].key,
amount := 0, delegate := from optional accounts[3] (original_amount 0) }`
into accounts[0]. -/
theorem newaccount_requires_no_signer (pid : Pubkey) (input : List Byte)
    (a0 a1 a2 : AccountInfo) (rest : List AccountInfo)
    (hcmd : Command.deserialize input = .ok .NewTokenAccount)
    (hun : State.deserialize a0.data = .ok .Unallocated)
    (hlen : 121 ≤ a0.data.length) :
    process pid (a0 :: a1 :: a2 :: rest) input =
      (.ok (), setData (a0 :: a1 :: a2 :: rest) 0
        (byte 2 :: (encodeAccount
          { token := a2.key, owner := a1.key, amount := 0,
            delegate := match rest with
              | [] => none
              | dg :: _ => some { source := dg.key, original_amount := 0 } } ++
          a0.data.drop 121))) := by
  have hp : process pid (a0 :: a1 :: a2 :: rest) input =
      process_newaccount (a0 :: a1 :: a2 :: rest) := by
    unfold process
    rw [hcmd]
  rw [hp]
  unfold process_newaccount
  dsimp only
  rw [hun]
  dsimp only
  rw [if_neg (by simp)]
  cases rest with
  | nil =>
    dsimp only
    rw [serialize_Account_eq _ hlen]
  | cons dg tl =>
    dsimp only
    rw [serialize_Account_eq _ hlen]

set_option maxRecDepth 100000 in
/-- Witness for C9: the all-unsigned CreateAccount scenario (with a fourth,
delegate-source account) succeeds. -/
theorem newaccount_requires_no_signer_witness :
    process pkProg acctsNewAccount newAccountInput =
      (.ok (), setData acctsNewAccount 0
        (byte 2 :: (encodeAccount
          { token := pkToken, owner := pkOwner, amount := 0,
            delegate := some { source := pkX, original_amount := 0 } } ++
          (byte 0 :: List.replicate 120 (byte 0)).drop 121))) :=
  newaccount_requires_no_signer pkProg newAccountInput
    { key := pkNew, is_signer := false, data := byte 0 :: List.replicate 120 (byte 0),
      owner := pkProg }
    { key := pkOwner, is_signer := false, data := [], owner := pkProg }
    { key := pkToken, is_signer := false, data := [], owner := pkProg }
    [{ key := pkX, is_signer := false, data := [], owner := pkProg }]
    (by decide) (by decide) (by decide)

/-- Claim C10: in every fully validated non-delegated Transfer the
destination's new stored amount is the u64-wrapping subtraction
`prior - amount (mod 2 ^ 64)`; in particular when the transferred amount
exceeds the prior destination balance the subtraction underflows and wraps
to `prior + 2 ^ 64 - amount`. -/
theorem transfer_dest_amount_is_wrapping_sub (pid : Pubkey) (amt : Nat) (input : List Byte)
    (a0 a1 a2 : AccountInfo) (rest : List AccountInfo) (s d : TokenAccount)
    (hcmd : Command.deserialize input = .ok (.Transfer amt))
    (hs : State.deserialize a1.data = .ok (.Account s))
    (hd : State.deserialize a2.data = .ok (.Account d))
    (hnodel : s.delegate = none)
    (htok : s.token = d.token)
    (hddel : d.delegate = none)
    (hsig : a0.is_signer = true)
    (hkey : a0.key = s.owner)
    (hamt : amt ≤ s.amount) :
    (process pid (a0 :: a1 :: a2 :: rest) input).1 = .ok () ∧
    State.deserialize
        (((process pid (a0 :: a1 :: a2 :: rest) input).2.map AccountInfo.data).getD 2 []) =
      .ok (.Account { token := d.token, owner := d.owner, amount := wrapSub d.amount amt,
                      delegate := none }) ∧
    (d.amount < amt → wrapSub d.amount amt = d.amount + 2 ^ 64 - amt) := by
  obtain ⟨hlen1, hwf1, hval1⟩ := deserialize_Account_inv hs
  obtain ⟨hlen2, hwf2, hval2⟩ := deserialize_Account_inv hd
  have hrun : process pid (a0 :: a1 :: a2 :: rest) input =
      (.ok (), setData (setData (a0 :: a1 :: a2 :: rest) 1
          (byte 2 :: (encodeAccount { s with amount := wrapSub s.amount amt } ++
            a1.data.drop 121))) 2
        (byte 2 :: (encodeAccount { d with amount := wrapSub d.amount amt } ++
          a2.data.drop 121))) := by
    have hp : process pid (a0 :: a1 :: a2 :: rest) input =
        process_transfer (a0 :: a1 :: a2 :: rest) amt := by
      unfold process
      rw [hcmd]
    rw [hp]
    unfold process_transfer
    dsimp only
    rw [hs, hd]
    dsimp only
    rw [if_neg (by simp [htok]), if_neg (by simp [hddel]), if_neg (by simp [hsig, hkey]),
      if_neg (Nat.not_lt.mpr hamt), serialize_Account_eq _ hlen1]
    dsimp only
    rw [hnodel]
    dsimp only
    unfold transferDest
    rw [serialize_Account_eq _ hlen2]
  refine ⟨by rw [hrun], ?_, fun hlt => wrapSub_of_lt hlt (transfer_amount_bound hcmd)⟩
  rw [hrun]
  have hget : ((setData (setData (a0 :: a1 :: a2 :: rest) 1
      (byte 2 :: (encodeAccount { s with amount := wrapSub s.amount amt } ++
        a1.data.drop 121))) 2
      (byte 2 :: (encodeAccount { d with amount := wrapSub d.amount amt } ++
        a2.data.drop 121))).map AccountInfo.data).getD 2 [] =
      byte 2 :: (encodeAccount { d with amount := wrapSub d.amount amt } ++
        a2.data.drop 121) := rfl
  rw [hget]
  obtain ⟨hw1, hw2, hw3, hw4⟩ := hwf2
  have hwf3 : wfAccount { token := d.token, owner := d.owner, amount := wrapSub d.amount amt, delegate := d.delegate } :=
    ⟨hw1, hw2, wrapSub_lt _ _, hw4⟩
  rw [deserialize_encoded_Account hwf3]
  rw [hddel]

set_option maxRecDepth 100000 in
/-- Witness for C10: in the happy-path scenario (destination balance 0,
transfer 40) the destination ends at `wrapSub 0 40 = 2 ^ 64 - 40`. -/
theorem transfer_dest_amount_is_wrapping_sub_witness :
    (process pkProg acctsHappy (transferInput 40)).1 = .ok () ∧
    State.deserialize
        (((process pkProg acctsHappy (transferInput 40)).2.map AccountInfo.data).getD 2 []) =
      .ok (.Account { token := pkToken, owner := pkDst, amount := wrapSub 0 40,
                      delegate := none }) ∧
    ((0 : Nat) < 40 → wrapSub 0 40 = 0 + 2 ^ 64 - 40) :=
  transfer_dest_amount_is_wrapping_sub pkProg 40 (transferInput 40)
    { key := pkOwner, is_signer := true, data := [], owner := pkProg }
    { key := pkSrc, is_signer := false,
      data := acctBuf { token := pkToken, owner := pkOwner, amount := 100, delegate := none },
      owner := pkProg }
    { key := pkDst, is_signer := false,
      data := acctBuf { token := pkToken, owner := pkDst, amount := 0, delegate := none },
      owner := pkProg } []
    { token := pkToken, owner := pkOwner, amount := 100, delegate := none }
    { token := pkToken, owner := pkDst, amount := 0, delegate := none }
    (by decide) (by decide) (by decide) rfl rfl rfl rfl rfl (by decide)

end ExampleToken
